import Mathlib

/-!
Verification of the congestion-control / retransmission-scheduling engine
in `src/lib.rs` (the `Choker` type, its `RTO` estimator and the
`WindowState` controller).

Modelling conventions (shallow embedding):
* `usize` counters (`window_max`, `factor`, message ids) are `ℕ`.
* The `u8` fields (`attempts` a.k.a. the retransmission counter, and the
  `conseq` field of `WindowState::Rising`) are `ℕ` kept below 256: every
  `+= 1` of the source is modelled as `(x + 1) % 256`, which is the
  wrap-around behaviour of release-mode Rust.
* `std::time::Duration` and `Instant` are modelled as `ℚ` (seconds).
  Rust `f64` arithmetic in `RTO::calc` is modelled over `ℚ`; the
  divergences this introduces (division by zero, `Duration::from_secs_f64`
  panicking on negative or non-finite input) are discussed at the
  theorems that concern them.
* `Vec` / `VecDeque` are `List`; `VecDeque::pop_back` removes the last
  element of the list, `Vec::push` appends at the end.
-/

namespace Cocoa

/-- One entry of `Choker::window`: the source tuple
`(usize, u8, Option<Duration>, Vec<u8>)` holding message id,
retransmission counter, optional measured RTT and payload. -/
structure Slot where
  mid : ℕ
  attempts : ℕ
  rtt : Option ℚ
  data : List ℕ
deriving DecidableEq, Repr

/-- `enum WindowState { Rising { factor: usize, conseq: u8 }, Halted }`. -/
inductive WindowState where
  | Rising (factor : ℕ) (conseq : ℕ)
  | Halted
deriving DecidableEq, Repr

/-- `const ALPHA: f64 = 0.125`. -/
def ALPHA : ℚ := 1/8

/-- `const BETA: f64 = 0.25`. -/
def BETA : ℚ := 1/4

/-- `const W_STRONG: f64 = 0.5`. -/
def W_STRONG : ℚ := 1/2

/-- `const W_WEAK: f64 = 0.25`. -/
def W_WEAK : ℚ := 1/4

/-- `fn bias(a: f64, weight: f64, b: f64) -> f64`:
`a` gets `1 - weight` influence, `b` gets `weight` influence. -/
def bias (a weight b : ℚ) : ℚ :=
  (1 - weight) * a + b * weight

/-- The `RTO` estimator state.  `rto` holds the seconds value of the
`Duration` field; the source stores it through `Duration::from_secs_f64`,
which panics when handed a negative or non-finite value — we keep the raw
rational so that theorems can exhibit exactly that panic condition. -/
structure RTO where
  rto : ℚ
  var_strong : ℚ
  strong : ℚ
  var_weak : ℚ
  weak : ℚ
deriving DecidableEq, Repr

/-- `RTO::new()`: rto = 2s, var_strong = 0.2, strong = 2.0,
var_weak = 0.2, weak = 2.0. -/
def RTO.new : RTO :=
  { rto := 2, var_strong := 1/5, strong := 2, var_weak := 1/5, weak := 2 }

/-- `RTO::calc(&mut self, transmissions: u8, rtt: Duration, weighted_against: usize)`.
Division is `ℚ` division; in the source `weighted_against as f64` may be
`0.0`, in which case the `f64` divisions produce `inf` (see the theorem
for claim C1). -/
def RTO.calc (r : RTO) (transmissions : ℕ) (rtt : ℚ) (weighted_against : ℕ) : RTO :=
  let secs := r.rto
  let weight : ℚ := (weighted_against : ℚ)
  if transmissions = 0 then
    let var_strong := bias r.var_strong (BETA / weight) (r.strong - rtt)
    let strong := bias r.strong (ALPHA / weight) rtt
    let secs := bias secs (W_STRONG / weight) (strong + 4 * var_strong)
    { r with rto := secs, var_strong := var_strong, strong := strong }
  else if transmissions ≤ 2 then
    let var_weak := bias r.var_weak (BETA / weight) (r.weak - rtt)
    let weak := bias r.weak (ALPHA / weight) rtt
    let secs := bias secs (W_WEAK / weight) (weak + var_weak)
    { r with rto := secs, var_weak := var_weak, weak := weak }
  else
    r

/-- The `Choker` engine state.  `buf` is the `VecDeque<(usize, Vec<u8>)>`
send queue (front of the deque = head of the list), `window` the in-flight
`Vec`, `rto_start`/`rto_end` the `Instant`s (seconds). -/
structure Choker where
  buf : List (ℕ × List ℕ)
  window : List Slot
  rto : RTO
  rto_start : ℚ
  rto_end : ℚ
  window_max : ℕ
  window_state : WindowState
deriving DecidableEq, Repr

/-- `Choker::new()`; the creation instant is passed explicitly. -/
def Choker.new (now : ℚ) : Choker :=
  { buf := [], window := [], rto := RTO.new, rto_start := now,
    rto_end := now + 2, window_max := 1, window_state := WindowState.Halted }

/-- Helper for `Choker::set_ack`: the `for … { if *w_mid == mid { *d = Some(rtt); break; } }`
loop — the first slot with matching id gets its rtt field set
(unconditionally overwritten), later slots are untouched. -/
def setAckList (mid : ℕ) (rtt : ℚ) : List Slot → List Slot
  | [] => []
  | s :: rest =>
    if s.mid = mid then { s with rtt := some rtt } :: rest
    else s :: setAckList mid rtt rest

/-- `Choker::set_ack(&mut self, mid: usize, rtt: Duration)`. -/
def Choker.set_ack (c : Choker) (mid : ℕ) (rtt : ℚ) : Choker :=
  { c with window := setAckList mid rtt c.window }

/-- `Choker::relevant_window_len`: `usize::min(self.window_max, self.window.len())`. -/
def Choker.relevant_window_len (c : Choker) : ℕ :=
  min c.window_max c.window.length

/-- The count `acked` of line 61 of the source: slots of the relevant
prefix whose rtt is set. -/
def ackedCount (c : Choker) : ℕ :=
  ((c.window.take c.relevant_window_len).filter (fun s => s.rtt.isSome)).length

/-- The window after the `retain` of lines 63–71: only slots without a
measured rtt survive. -/
def prunedW (c : Choker) : List Slot :=
  c.window.filter (fun s => s.rtt.isNone)

/-- The `(transmissions, rtt, weighted_against)` argument triples of the
`self.rto.calc` calls issued by the `retain` of lines 63–71, in call
order (the `retain` visits the window front to back and uses the `acked`
count captured before pruning for every call). -/
def tickSamples (c : Choker) : List (ℕ × ℚ × ℕ) :=
  c.window.filterMap (fun s => s.rtt.map (fun r => (s.attempts, r, ackedCount c)))

/-- The `*t += 1` of line 77 on the `u8` retransmission counter. -/
def bumpAttempts (s : Slot) : Slot :=
  { s with attempts := (s.attempts + 1) % 256 }

/-- Lines 81–111: the capacity / controller-state update, fed with
`unacked` (the relevant-prefix length after pruning). -/
def windowAdjust (unacked : ℕ) (st : WindowState) (wm : ℕ) : WindowState × ℕ :=
  if unacked > 0 then
    let packet_min := unacked / 2
    (WindowState.Halted, if wm > packet_min then wm - packet_min else 1)
  else
    match st with
    | WindowState.Rising factor conseq =>
      let fc : ℕ × ℕ :=
        if factor = 0 then (factor + 1, conseq) else (factor, (conseq + 1) % 256)
      let fc2 : ℕ × ℕ :=
        if fc.2 = 3 then (fc.1 + 1, 0) else fc
      (WindowState.Rising fc2.1 fc2.2, wm + fc2.1)
    | WindowState.Halted => (WindowState.Rising 0 0, wm)

/-- Admission of a queued chunk as a fresh slot (line 116):
`(mid, 0, None, data)`. -/
def newSlot (p : ℕ × List ℕ) : Slot :=
  ⟨p.1, 0, none, p.2⟩

/-- The refill loop of lines 113–120, acting on the reversed queue
(`VecDeque::pop_back` removes the last element, i.e. the head of the
reversed list); stops as soon as the window is full or the queue empty. -/
def refillAux (wm : ℕ) : List Slot → List (ℕ × List ℕ) → List Slot × List (ℕ × List ℕ)
  | window, [] => (window, [])
  | window, p :: rest =>
    if wm > window.length then refillAux wm (window ++ [newSlot p]) rest
    else (window, p :: rest)

/-- Lines 113–120: refill the window from the back of the send queue. -/
def refill (wm : ℕ) (window : List Slot) (buf : List (ℕ × List ℕ)) :
    List Slot × List (ℕ × List ℕ) :=
  let r := refillAux wm window buf.reverse
  (r.1, r.2.reverse)

/-- Result of `Choker::rto_tick`: the updated engine, the returned
`(Instant, Vec<usize>)` pair, and (for reasoning about the estimator) the
list of `rto.calc` invocations the pass performed. -/
structure TickResult where
  choker : Choker
  rto_end : ℚ
  mids : List ℕ
  samples : List (ℕ × ℚ × ℕ)
deriving DecidableEq, Repr

/-- `Choker::rto_tick(&mut self, now: Instant)`, lines 60–129 of the
source, step by step: count acked in the relevant prefix, prune acked
slots anywhere feeding each to `rto.calc`, increment `attempts` over the
recomputed relevant prefix, adjust capacity and controller state, refill
from the back of the queue, set the new deadline, and collect the ids of
the final relevant prefix. -/
def Choker.rto_tick (c : Choker) (now : ℚ) : TickResult :=
  let samples := tickSamples c
  let rto' := samples.foldl (fun r s => r.calc s.1 s.2.1 s.2.2) c.rto
  let kept := prunedW c
  let len := min c.window_max kept.length
  let window2 := (kept.take len).map bumpAttempts ++ kept.drop len
  let a := windowAdjust len c.window_state c.window_max
  let rb := refill a.2 window2 c.buf
  let c' : Choker :=
    { buf := rb.2, window := rb.1, rto := rto', rto_start := now,
      rto_end := now + rto'.rto, window_max := a.2, window_state := a.1 }
  { choker := c'
    rto_end := now + rto'.rto
    mids := (c'.window.take c'.relevant_window_len).map Slot.mid
    samples := samples }

/-- A reconciliation pass is clean when the relevant prefix after pruning
is empty (the `unacked` count of lines 73–79 is zero). -/
def cleanTick (c : Choker) : Prop :=
  min c.window_max (prunedW c).length = 0

instance (c : Choker) : Decidable (cleanTick c) := by
  unfold cleanTick; infer_instance

/-- Engine used to exhibit the zero-weight sample: `window_max = 1`, one
unacked slot in the relevant prefix and one acked slot outside it. -/
def cC1 : Choker :=
  { Choker.new 0 with window := [⟨1, 0, none, []⟩, ⟨2, 0, some (1/2), []⟩] }

/-- Engine with a single unacked slot, used for the double-ack claim. -/
def cC2 : Choker :=
  { Choker.new 0 with window := [⟨7, 0, none, []⟩] }

/-- An engine tracking a single slot with id `mid`, acked twice with
`r1` then `r2`. -/
def twoAckChoker (mid a : ℕ) (d : List ℕ) (buf : List (ℕ × List ℕ))
    (rt : RTO) (ts te : ℚ) (wm : ℕ) (st : WindowState) (r1 r2 : ℚ) : Choker :=
  ((({ buf := buf, window := [⟨mid, a, none, d⟩], rto := rt, rto_start := ts,
          rto_end := te, window_max := wm, window_state := st } : Choker).set_ack
    mid r1).set_ack mid r2)

/-- Engine with three unacked slots and `window_max = 5` for the C4
witness: the pass must shrink capacity to `max 1 (5 − 3/2) = 4`. -/
def c4w : Choker :=
  { Choker.new 0 with
    window := [⟨1, 5, none, []⟩, ⟨2, 0, none, []⟩, ⟨3, 0, none, []⟩],
    window_max := 5 }

/-- Curried form of the clean-pass branch of the controller update: what
`windowAdjust` does to the `(state, capacity)` pair when `unacked = 0`. -/
def cleanStep (p : WindowState × ℕ) : WindowState × ℕ :=
  windowAdjust 0 p.1 p.2

/-- The idle engine: a fresh `Choker` ticked repeatedly with nothing ever
enqueued or acknowledged. -/
def idleIter : ℕ → Choker
  | 0 => Choker.new 0
  | n + 1 => ((idleIter n).rto_tick 0).choker

/-- An engine holding one never-acknowledged slot, ticked repeatedly. -/
def c8Start : Choker :=
  { Choker.new 0 with window := [⟨1, 0, none, []⟩] }

/-- Iterated ticks of the one-slot engine. -/
def c8Iter : ℕ → Choker
  | 0 => c8Start
  | n + 1 => ((c8Iter n).rto_tick 0).choker

/-- Concrete engine for the relevance-boundary witness: `window_max = 2`,
an acked slot inside the prefix, two unacked relevant slots, one slot
beyond the boundary, and one queued chunk. -/
def c7w : Choker :=
  { Choker.new 0 with
    window := [⟨1, 0, some 1, []⟩, ⟨2, 0, none, []⟩, ⟨3, 0, none, []⟩,
      ⟨4, 0, none, []⟩],
    window_max := 2,
    buf := [(9, [])] }


/-- Projection: the samples a tick reports are exactly the `tickSamples`. -/
lemma rto_tick_samples (c : Choker) (now : ℚ) :
    (c.rto_tick now).samples = tickSamples c := rfl

/-- Projection: the capacity after a tick is the second component of the
`windowAdjust` update fed with the post-prune relevant length. -/
lemma rto_tick_window_max (c : Choker) (now : ℚ) :
    (c.rto_tick now).choker.window_max =
      (windowAdjust (min c.window_max (prunedW c).length)
        c.window_state c.window_max).2 := rfl

/-- Projection: controller state after a tick. -/
lemma rto_tick_window_state (c : Choker) (now : ℚ) :
    (c.rto_tick now).choker.window_state =
      (windowAdjust (min c.window_max (prunedW c).length)
        c.window_state c.window_max).1 := rfl

/-- Projection: the window after a tick is the refill applied to the
pruned-and-bumped window. -/
lemma rto_tick_window (c : Choker) (now : ℚ) :
    (c.rto_tick now).choker.window =
      (refill (windowAdjust (min c.window_max (prunedW c).length)
          c.window_state c.window_max).2
        (((prunedW c).take (min c.window_max (prunedW c).length)).map bumpAttempts
          ++ (prunedW c).drop (min c.window_max (prunedW c).length))
        c.buf).1 := rfl

/-- Projection: the send queue after a tick. -/
lemma rto_tick_buf (c : Choker) (now : ℚ) :
    (c.rto_tick now).choker.buf =
      (refill (windowAdjust (min c.window_max (prunedW c).length)
          c.window_state c.window_max).2
        (((prunedW c).take (min c.window_max (prunedW c).length)).map bumpAttempts
          ++ (prunedW c).drop (min c.window_max (prunedW c).length))
        c.buf).2 := rfl

/-- Projection: the returned ids are the ids of the final relevant prefix. -/
lemma rto_tick_mids (c : Choker) (now : ℚ) :
    (c.rto_tick now).mids =
      (((c.rto_tick now).choker.window).take
        ((c.rto_tick now).choker.relevant_window_len)).map Slot.mid := rfl

/-- Closed form of the refill loop on the reversed queue: it admits
`min (wm − |window|) |rbuf|` chunks off the front of the reversed queue
(i.e. the back of the queue) and leaves the rest. -/
lemma refillAux_spec (wm : ℕ) :
    ∀ (window : List Slot) (rbuf : List (ℕ × List ℕ)),
      refillAux wm window rbuf =
        (window ++ (rbuf.take (min (wm - window.length) rbuf.length)).map newSlot,
         rbuf.drop (min (wm - window.length) rbuf.length)) := by
  intro window rbuf
  induction rbuf generalizing window with
  | nil => simp [refillAux]
  | cons p rest ih =>
    rw [refillAux]
    by_cases h : wm > window.length
    · rw [if_pos h, ih]
      have hmin : min (wm - window.length) (rest.length + 1) =
          min (wm - (window ++ [newSlot p]).length) rest.length + 1 := by
        simp only [List.length_append, List.length_singleton]
        omega
      simp only [List.length_cons, hmin, List.take_succ_cons, List.drop_succ_cons,
        List.map_cons, List.append_assoc, List.singleton_append]
    · rw [if_neg h]
      have : min (wm - window.length) (rest.length + 1) = 0 := by omega
      simp [this]

/-- Closed form of the whole refill step (lines 113–120). -/
lemma refill_spec (wm : ℕ) (window : List Slot) (buf : List (ℕ × List ℕ)) :
    refill wm window buf =
      (window ++ ((buf.reverse.take (min (wm - window.length) buf.length)).map newSlot),
       buf.take (buf.length - min (wm - window.length) buf.length)) := by
  unfold refill
  rw [refillAux_spec]
  simp [List.reverse_drop]

/-- Every id of a refilled window comes either from the window being
refilled or from the send queue. -/
lemma refill_window_mids_subset (wm : ℕ) (window : List Slot)
    (buf : List (ℕ × List ℕ)) :
    ((refill wm window buf).1.map Slot.mid) ⊆
      window.map Slot.mid ++ buf.map Prod.fst := by
  rw [refill_spec]
  intro x hx
  simp only [List.map_append, List.mem_append] at hx ⊢
  rcases hx with h | h
  · exact Or.inl h
  · right
    simp only [List.map_map, List.mem_map] at h
    obtain ⟨p, hp, hpx⟩ := h
    have hpb : p ∈ buf := List.mem_reverse.mp (List.mem_of_mem_take hp)
    exact hpx ▸ List.mem_map_of_mem Prod.fst hpb


/-- Claim C1, evaluated at the failing input: with `window_max = 1`, an
acked slot outside the relevant prefix and no acks inside it, the count
`acked` is 0 and the reconciliation pass nevertheless feeds the estimator
a sample with `batch_weight = 0` — the `retain` of lines 63–71 calls
`rto.calc` for every acked slot anywhere in the window, with no guard.
In the Rust source this divides `BETA` by `0.0` (giving `inf`), makes
`secs` NaN, and `Duration::from_secs_f64` panics. -/
theorem C1_zero_weight_sample_reached :
    ackedCount cC1 = 0 ∧ (cC1.rto_tick 0).samples = [(0, 1/2, 0)] :=
  ⟨rfl, rfl⟩


/-- Claim C2, counterexample: `set_ack` overwrites unconditionally, so a
second `notify_ack` for the same id with rtt 2s replaces the first value
1s — the slot does not keep the first value, and the one sample recorded
by the next tick carries rtt 2, not 1. -/
theorem C2_second_ack_overwrites_cex :
    ((cC2.set_ack 7 1).set_ack 7 2).window.map Slot.rtt = [some 2] ∧
    (((cC2.set_ack 7 1).set_ack 7 2).rto_tick 0).samples = [(0, 2, 1)] ∧
    (2 : ℚ) ≠ 1 :=
  ⟨rfl, rfl, by norm_num⟩


/-- Claim C2 (amended): for every id and pair of RTT values, the second
`set_ack` overwrites the slot's recorded RTT with the second value `r2`;
a subsequent tick prunes that slot exactly once and feeds exactly one
sample to the estimator, carrying rtt `r2` (not `r1`). -/
theorem C2_ack_overwrite_amended (mid a : ℕ) (d : List ℕ)
    (buf : List (ℕ × List ℕ)) (rt : RTO) (ts te now : ℚ) (wm : ℕ)
    (st : WindowState) (r1 r2 : ℚ) (hwm : 1 ≤ wm)
    (hbuf : mid ∉ buf.map Prod.fst) :
    (twoAckChoker mid a d buf rt ts te wm st r1 r2).window = [⟨mid, a, some r2, d⟩] ∧
    ((twoAckChoker mid a d buf rt ts te wm st r1 r2).rto_tick now).samples = [(a, r2, 1)] ∧
    mid ∉ ((twoAckChoker mid a d buf rt ts te wm st r1 r2).rto_tick
      now).choker.window.map Slot.mid := by
  have hw : (twoAckChoker mid a d buf rt ts te wm st r1 r2).window
      = [⟨mid, a, some r2, d⟩] := by
    simp [twoAckChoker, Choker.set_ack, setAckList]
  have hwmax : (twoAckChoker mid a d buf rt ts te wm st r1 r2).window_max = wm := rfl
  have hbufe : (twoAckChoker mid a d buf rt ts te wm st r1 r2).buf = buf := rfl
  have hmin : min wm 1 = 1 := by omega
  refine ⟨hw, ?_, ?_⟩
  · rw [rto_tick_samples]
    simp [tickSamples, ackedCount, Choker.relevant_window_len, hw, hwmax, hmin]
  · intro hmem
    rw [rto_tick_window] at hmem
    have hkept : prunedW (twoAckChoker mid a d buf rt ts te wm st r1 r2) = [] := by
      simp [prunedW, hw]
    rw [hkept] at hmem
    simp only [List.length_nil, Nat.min_zero, List.take_nil, List.map_nil,
      List.drop_nil, List.append_nil, List.nil_append] at hmem
    have hsub := refill_window_mids_subset
      (windowAdjust 0 (twoAckChoker mid a d buf rt ts te wm st r1 r2).window_state
        (twoAckChoker mid a d buf rt ts te wm st r1 r2).window_max).2
      [] (twoAckChoker mid a d buf rt ts te wm st r1 r2).buf hmem
    rw [hbufe] at hsub
    simp only [List.map_nil, List.nil_append] at hsub
    exact hbuf hsub

/-- Witness for the amended claim C2 at concrete inputs. -/
theorem C2_ack_overwrite_amended_witness :
    ((1 ≤ 2 ∧ (5:ℕ) ∉ ([(9, [])] : List (ℕ × List ℕ)).map Prod.fst)) ∧
    ((twoAckChoker 5 3 [] [(9, [])] RTO.new 0 2 2 WindowState.Halted 1 2).window
        = [⟨5, 3, some 2, []⟩] ∧
     ((twoAckChoker 5 3 [] [(9, [])] RTO.new 0 2 2 WindowState.Halted 1 2).rto_tick 0).samples
        = [(3, 2, 1)] ∧
     5 ∉ ((twoAckChoker 5 3 [] [(9, [])] RTO.new 0 2 2 WindowState.Halted 1 2).rto_tick
        0).choker.window.map Slot.mid) :=
  ⟨by decide,
   C2_ack_overwrite_amended 5 3 [] [(9, [])] RTO.new 0 2 0 2 WindowState.Halted 1 2
     (by decide) (by decide)⟩

/-- Claim C3, evaluated at the failing input: a single first-try sample
with rtt 100s and batch weight 1 drives the blended seconds value of the
estimator strictly negative (to −40.575).  The source performs no clamp:
it hands this value straight to `Duration::from_secs_f64`, which panics
on negative input, so pathological inputs crash rather than being clamped
to a minimum positive duration. -/
theorem C3_negative_rto_reached : (RTO.new.calc 0 100 1).rto < 0 := by
  norm_num [RTO.calc, RTO.new, bias, ALPHA, BETA, W_STRONG]

/-- Claim C4: whenever the relevant prefix still holds `unacked > 0`
slots after pruning, the capacity after the pass is
`max 1 (window_max_before − unacked / 2)` (integer division) and the
controller state becomes `Halted`. -/
theorem C4_backoff (c : Choker) (now : ℚ)
    (h : 0 < min c.window_max (prunedW c).length) :
    (c.rto_tick now).choker.window_max =
        max 1 (c.window_max - min c.window_max (prunedW c).length / 2) ∧
    (c.rto_tick now).choker.window_state = WindowState.Halted := by
  rw [rto_tick_window_max, rto_tick_window_state]
  unfold windowAdjust
  rw [if_pos h]
  refine ⟨?_, rfl⟩
  show (if c.window_max > min c.window_max (prunedW c).length / 2
      then c.window_max - min c.window_max (prunedW c).length / 2 else 1) =
    max 1 (c.window_max - min c.window_max (prunedW c).length / 2)
  split_ifs with hc <;> omega


/-- Witness for claim C4 at a concrete engine. -/
theorem C4_backoff_witness :
    0 < min c4w.window_max (prunedW c4w).length ∧
    ((c4w.rto_tick 0).choker.window_max =
        max 1 (c4w.window_max - min c4w.window_max (prunedW c4w).length / 2) ∧
     (c4w.rto_tick 0).choker.window_state = WindowState.Halted) :=
  ⟨by decide, C4_backoff c4w 0 (by decide)⟩

/-- Claim C6: recording a single first-try sample (attempts 0, rtt 1s,
batch weight 1) on a fresh estimator updates the strong variance first
(it reads the still-unchanged mean 2.0), the mean second, and produces
exactly `bias(2, 0.5, bias(2, 0.125, 1) + 4·bias(0.2, 0.25, 2 − 1))` as
the new rto.  The source performs the identical operation sequence as
the claimed formula (the per-sample weights are divided by the batch
weight 1, which is exact), so the identity holds in any arithmetic
interpretation of the shared literals, IEEE f64 included; here it is
proved over `ℚ`. -/
theorem C6_rto_blend :
    (RTO.new.calc 0 1 1).var_strong = bias (1/5) (1/4) (2 - 1) ∧
    (RTO.new.calc 0 1 1).strong = bias 2 (1/8) 1 ∧
    (RTO.new.calc 0 1 1).rto =
      bias 2 (1/2) (bias 2 (1/8) 1 + 4 * bias (1/5) (1/4) (2 - 1)) := by
  refine ⟨?_, ?_, ?_⟩ <;>
    norm_num [RTO.calc, RTO.new, bias, ALPHA, BETA, W_STRONG]

/-- Claim C9: the refill step admits chunks from the back of the send
queue — the reversed-queue prefix `buf.reverse.take k`, most recently
enqueued first — each as a fresh slot with `attempts = 0` and no measured
RTT; `k = min (window_max − |window|) |buf|`, so refill stops when the
queue runs out even if capacity remains, and the surviving queue is the
untouched front portion.  The last conjunct ties this `refill` to the
one `rto_tick` performs. -/
theorem C9_refill_lifo (wm : ℕ) (window : List Slot)
    (buf : List (ℕ × List ℕ)) (c : Choker) (now : ℚ) :
    (refill wm window buf).1 =
        window ++ ((buf.reverse.take (min (wm - window.length) buf.length)).map newSlot) ∧
    (refill wm window buf).2 =
        buf.take (buf.length - min (wm - window.length) buf.length) ∧
    (∀ p : ℕ × List ℕ, (newSlot p).attempts = 0 ∧ (newSlot p).rtt = none) ∧
    (c.rto_tick now).choker.window =
      (refill (c.rto_tick now).choker.window_max
        (((prunedW c).take (min c.window_max (prunedW c).length)).map bumpAttempts
          ++ (prunedW c).drop (min c.window_max (prunedW c).length)) c.buf).1 := by
  refine ⟨?_, ?_, fun p => ⟨rfl, rfl⟩, rfl⟩
  · rw [refill_spec]
  · rw [refill_spec]

/-- On a clean pass (empty post-prune relevant prefix) the tick updates
the `(state, capacity)` pair exactly by the unacked-0 branch of
`windowAdjust`. -/
lemma rto_tick_clean_adjust (c : Choker) (now : ℚ) (h : cleanTick c) :
    ((c.rto_tick now).choker.window_state, (c.rto_tick now).choker.window_max) =
      cleanStep (c.window_state, c.window_max) := by
  have h0 : min c.window_max (prunedW c).length = 0 := h
  rw [rto_tick_window_state, rto_tick_window_max, h0]
  rfl

/-- One clean step from a `Rising` state with nonzero factor: the streak
counter advances, rolling the factor over when it reaches 3. -/
lemma cleanStep_rising_eq (f cq wm : ℕ) (hf : f ≠ 0) (hcq : cq + 1 < 256) :
    cleanStep (WindowState.Rising f cq, wm) =
      (if cq + 1 = 3 then (WindowState.Rising (f + 1) 0, wm + (f + 1))
       else (WindowState.Rising f (cq + 1), wm + f)) := by
  unfold cleanStep windowAdjust
  rw [if_neg (by omega : ¬ (0:ℕ) > 0)]
  simp only [if_neg hf, Nat.mod_eq_of_lt hcq]
  by_cases h3 : cq + 1 = 3
  · simp [h3]
  · simp [h3]

/-- Closed form of the controller state after `n ≥ 2` clean steps from
`Halted`: factor `1 + (n−2)/3`, streak counter `(n−2) % 3`. -/
lemma cleanStep_iter_state (w : ℕ) :
    ∀ n, 2 ≤ n →
      (cleanStep^[n] (WindowState.Halted, w)).1 =
        WindowState.Rising (1 + (n - 2) / 3) ((n - 2) % 3) := by
  intro n
  induction n with
  | zero => omega
  | succ m ih =>
    intro hn
    rcases Nat.lt_or_ge m 2 with hm | hm
    · have hm1 : m = 1 := by omega
      subst hm1
      rfl
    · have hst := ih hm
      rw [Function.iterate_succ_apply']
      have hpe : cleanStep^[m] (WindowState.Halted, w) =
          (WindowState.Rising (1 + (m - 2) / 3) ((m - 2) % 3),
            (cleanStep^[m] (WindowState.Halted, w)).2) := by
        rw [← hst]
      rw [hpe, cleanStep_rising_eq _ _ _ (by omega) (by omega)]
      split_ifs with h3
      · simp only
        congr 1 <;> omega
      · simp only
        congr 1 <;> omega

/-- The capacity increment of the `(n+1)`-st clean step (`n ≥ 1`) is
`1 + (n−1)/3`: the growth pattern 1, 1, 1, 2, 2, 2, 3, … -/
lemma cleanStep_iter_wm (w : ℕ) :
    ∀ n, 1 ≤ n →
      (cleanStep^[n + 1] (WindowState.Halted, w)).2 =
        (cleanStep^[n] (WindowState.Halted, w)).2 + (1 + (n - 1) / 3) := by
  intro n hn
  rcases Nat.lt_or_ge n 2 with h1 | h2
  · have : n = 1 := by omega
    subst this
    rfl
  · have hst := cleanStep_iter_state w n h2
    rw [Function.iterate_succ_apply']
    have hpe : cleanStep^[n] (WindowState.Halted, w) =
        (WindowState.Rising (1 + (n - 2) / 3) ((n - 2) % 3),
          (cleanStep^[n] (WindowState.Halted, w)).2) := by
      rw [← hst]
    rw [hpe, cleanStep_rising_eq _ _ _ (by omega) (by omega)]
    split_ifs with h3 <;> simp only <;> omega

/-- Capacity never shrinks along clean steps. -/
lemma cleanStep_iter_wm_le (w : ℕ) (n : ℕ) :
    (cleanStep^[n] (WindowState.Halted, w)).2 ≤
      (cleanStep^[n + 1] (WindowState.Halted, w)).2 := by
  rcases Nat.eq_zero_or_pos n with h0 | h1
  · subst h0
    exact Nat.le_refl _
  · rw [cleanStep_iter_wm w n h1]
    omega

/-- A run of ticks that are all clean drives the `(state, capacity)` pair
along the `cleanStep` iteration. -/
lemma clean_run_pair (s : ℕ → Choker) (now : ℕ → ℚ) (n : ℕ)
    (h0 : (s 0).window_state = WindowState.Halted)
    (hstep : ∀ k, k < n → s (k + 1) = ((s k).rto_tick (now k)).choker)
    (hclean : ∀ k, k < n → cleanTick (s k)) :
    ∀ k, k ≤ n → ((s k).window_state, (s k).window_max) =
      cleanStep^[k] (WindowState.Halted, (s 0).window_max) := by
  intro k
  induction k with
  | zero =>
    intro _
    rw [h0]
    rfl
  | succ m ih =>
    intro hk
    have hlt : m < n := by omega
    rw [hstep m hlt, rto_tick_clean_adjust _ _ (hclean m hlt), ih (by omega),
      Function.iterate_succ_apply']

/-- Claim C5: over any run of consecutive clean ticks (zero unacked slots
in the relevant prefix after pruning) starting from `Halted`, the
capacity is non-decreasing; the first clean pass only moves the
controller to `Rising{0, 0}` leaving `window_max` unchanged, and the
`(k+1)`-st pass (`k ≥ 1`) adds exactly `1 + (k−1)/3`, i.e. the increment
pattern 1, 1, 1, 2, 2, 2, 3, 3, 3, … growing by one after every third
consecutive clean pass. -/
theorem C5_growth (s : ℕ → Choker) (now : ℕ → ℚ) (n : ℕ)
    (h0 : (s 0).window_state = WindowState.Halted)
    (hstep : ∀ k, k < n → s (k + 1) = ((s k).rto_tick (now k)).choker)
    (hclean : ∀ k, k < n → cleanTick (s k)) :
    (∀ k, k + 1 ≤ n → (s k).window_max ≤ (s (k + 1)).window_max) ∧
    (1 ≤ n → (s 1).window_state = WindowState.Rising 0 0 ∧
      (s 1).window_max = (s 0).window_max) ∧
    (∀ k, 1 ≤ k → k + 1 ≤ n →
      (s (k + 1)).window_max = (s k).window_max + (1 + (k - 1) / 3)) := by
  have hpair := clean_run_pair s now n h0 hstep hclean
  refine ⟨?_, ?_, ?_⟩
  · intro k hk
    have e1 := congrArg Prod.snd (hpair k (by omega))
    have e2 := congrArg Prod.snd (hpair (k + 1) hk)
    simp only at e1 e2
    rw [e1, e2]
    exact cleanStep_iter_wm_le _ k
  · intro hn
    have h1 := hpair 1 hn
    have hit : cleanStep^[1] (WindowState.Halted, (s 0).window_max) =
        (WindowState.Rising 0 0, (s 0).window_max) := rfl
    rw [hit] at h1
    exact ⟨congrArg Prod.fst h1, congrArg Prod.snd h1⟩
  · intro k hk1 hk2
    have e1 := congrArg Prod.snd (hpair k (by omega))
    have e2 := congrArg Prod.snd (hpair (k + 1) hk2)
    simp only at e1 e2
    rw [e1, e2]
    exact cleanStep_iter_wm _ k hk1

/-- Witness for claim C5: seven ticks of the idle engine form a clean run
from `Halted`, and the conclusions hold of it. -/
theorem C5_growth_witness :
    ((idleIter 0).window_state = WindowState.Halted ∧
     (∀ k, k < 7 → idleIter (k + 1) = ((idleIter k).rto_tick 0).choker) ∧
     (∀ k, k < 7 → cleanTick (idleIter k))) ∧
    ((∀ k, k + 1 ≤ 7 → (idleIter k).window_max ≤ (idleIter (k + 1)).window_max) ∧
     (1 ≤ 7 → (idleIter 1).window_state = WindowState.Rising 0 0 ∧
       (idleIter 1).window_max = (idleIter 0).window_max) ∧
     (∀ k, 1 ≤ k → k + 1 ≤ 7 →
       (idleIter (k + 1)).window_max = (idleIter k).window_max + (1 + (k - 1) / 3))) :=
  ⟨⟨rfl, fun _ _ => rfl, by decide⟩,
   C5_growth idleIter (fun _ => 0) 7 rfl (fun _ _ => rfl) (by decide)⟩

/-- The idle engine never acquires a window or queue entry. -/
lemma idleIter_empty : ∀ n, (idleIter n).window = [] ∧ (idleIter n).buf = [] := by
  intro n
  induction n with
  | zero => exact ⟨rfl, rfl⟩
  | succ m ih =>
    obtain ⟨hw, hb⟩ := ih
    have hk : prunedW (idleIter m) = [] := by
      rw [prunedW, hw]
      rfl
    constructor
    · rw [show idleIter (m + 1) = ((idleIter m).rto_tick 0).choker from rfl,
        rto_tick_window, hk, hb]
      simp [refill_spec]
    · rw [show idleIter (m + 1) = ((idleIter m).rto_tick 0).choker from rfl,
        rto_tick_buf, hk, hb]
      simp [refill_spec]

/-- Every tick of the idle engine is a clean pass. -/
lemma idleIter_clean (n : ℕ) : cleanTick (idleIter n) := by
  unfold cleanTick
  rw [prunedW, (idleIter_empty n).1]
  simp

/-- The idle engine's `(state, capacity)` pair follows the clean-step
iteration from `(Halted, 1)`. -/
lemma idleIter_pair : ∀ n,
    ((idleIter n).window_state, (idleIter n).window_max) =
      cleanStep^[n] (WindowState.Halted, 1) := by
  intro n
  induction n with
  | zero => rfl
  | succ m ih =>
    rw [show idleIter (m + 1) = ((idleIter m).rto_tick 0).choker from rfl,
      rto_tick_clean_adjust _ _ (idleIter_clean m), ih,
      Function.iterate_succ_apply']

/-- Claim C10: with both window and queue empty, every tick is a clean
pass even though nothing was ever acknowledged; the first tick moves the
controller from `Halted` to `Rising` without changing `window_max`, every
later tick strictly increases `window_max`, and the capacity grows
without bound. -/
theorem C10_idle_growth :
    (∀ n, cleanTick (idleIter n)) ∧
    (idleIter 1).window_state = WindowState.Rising 0 0 ∧
    (idleIter 1).window_max = (idleIter 0).window_max ∧
    (∀ n, 1 ≤ n → (idleIter n).window_max < (idleIter (n + 1)).window_max) ∧
    (∀ B : ℕ, ∃ n, B < (idleIter n).window_max) := by
  have hwm : ∀ n, (idleIter n).window_max =
      (cleanStep^[n] (WindowState.Halted, 1)).2 :=
    fun n => congrArg Prod.snd (idleIter_pair n)
  have hgrow : ∀ n, 1 ≤ n →
      (idleIter n).window_max < (idleIter (n + 1)).window_max := by
    intro n hn
    rw [hwm n, hwm (n + 1), cleanStep_iter_wm 1 n hn]
    omega
  refine ⟨idleIter_clean, congrArg Prod.fst (idleIter_pair 1), ?_, hgrow, ?_⟩
  · rw [hwm 1, hwm 0]
    rfl
  · intro B
    have hlb : ∀ n, 1 ≤ n → n ≤ (idleIter n).window_max := by
      intro n hn
      induction n with
      | zero => omega
      | succ m ih =>
        rcases Nat.eq_zero_or_pos m with h0 | h1
        · subst h0
          rw [hwm 1]
          exact Nat.le_refl 1
        · have h2 := ih h1
          have h3 := hgrow m h1
          omega
    exact ⟨B + 1, by have := hlb (B + 1) (by omega); omega⟩

/-- Witness for claim C10: the second idle tick strictly grows capacity. -/
theorem C10_idle_growth_witness :
    (idleIter 1).window_max < (idleIter 2).window_max :=
  C10_idle_growth.2.2.2.1 1 (Nat.le_refl 1)

/-- Ticking the single-slot engine `n` times leaves everything fixed
except the slot's `u8` retransmission counter, which counts mod 256. -/
lemma c8Iter_spec : ∀ n,
    c8Iter n = { c8Start with window := [⟨1, n % 256, none, []⟩] } := by
  intro n
  induction n with
  | zero => rfl
  | succ m ih =>
    rw [show c8Iter (m + 1) = ((c8Iter m).rto_tick 0).choker from rfl, ih]
    simp only [Choker.rto_tick, tickSamples, ackedCount, prunedW,
      Choker.relevant_window_len, c8Start, Choker.new, windowAdjust, refill,
      refillAux, bumpAttempts, newSlot, RTO.new]
    simp [bumpAttempts]

/-- Claim C8, evaluated at the failing input: a slot that stays
unacknowledged in the relevant prefix for 256 consecutive ticks has its
`u8` attempts counter wrap from 255 back to 0 (in release Rust; with
overflow checks the 256-th increment panics), so the counter does not
only increase over the slot's lifetime. -/
theorem C8_attempts_wrap :
    (c8Iter 255).window.map Slot.attempts = [255] ∧
    (c8Iter 256).window.map Slot.attempts = [0] := by
  rw [c8Iter_spec 255, c8Iter_spec 256]
  exact ⟨rfl, rfl⟩

/-- An element of a duplicate-free list sitting at or beyond position `k`
does not occur among the first `k` entries. -/
lemma nodup_getElem_not_mem_take {α : Type} (l : List α) (hnd : l.Nodup)
    (i k : ℕ) (hi : i < l.length) (hk : k ≤ i) : l[i] ∉ l.take k := by
  intro hmem
  obtain ⟨j, hj, hje⟩ := List.getElem_of_mem hmem
  have hjk : j < k := by
    have h2 := hj
    simp [List.length_take] at h2
    omega
  rw [List.getElem_take] at hje
  have hij : j = i := (List.Nodup.getElem_inj_iff hnd).mp hje
  omega

/-- With duplicate-free ids, a window slot that shares the id of the slot
at position `i` is that slot. -/
lemma nodup_mid_unique (l : List Slot) (hnd : (l.map Slot.mid).Nodup)
    (i : ℕ) (hi : i < l.length) (s' : Slot) (hs' : s' ∈ l)
    (hm : s'.mid = l[i].mid) : s' = l[i] := by
  obtain ⟨j, hj, hje⟩ := List.getElem_of_mem hs'
  have hj2 : j < (l.map Slot.mid).length := by simpa using hj
  have hi2 : i < (l.map Slot.mid).length := by simpa using hi
  have hmj : (l.map Slot.mid).get (Fin.mk j hj2) =
      (l.map Slot.mid).get (Fin.mk i hi2) := by
    simp only [List.get_eq_getElem, List.getElem_map]
    rw [hje, hm]
  have hij : j = i := (List.Nodup.getElem_inj_iff hnd).mp hmj
  subst hij
  exact hje.symm

/-- With duplicate-free ids, `set_ack` aimed at the id of the slot at
position `i` overwrites exactly that slot's rtt field. -/
lemma setAckList_set : ∀ (l : List Slot) (i : ℕ), (hi : i < l.length) → ∀ (rv : ℚ),
    (l.map Slot.mid).Nodup →
    setAckList (l[i].mid) rv l = l.set i { l[i] with rtt := some rv } := by
  intro l
  induction l with
  | nil =>
    intro i hi
    simp at hi
  | cons s rest ih =>
    intro i hi rv hnd
    cases i with
    | zero =>
      simp [setAckList]
    | succ j =>
      have hj : j < rest.length := by simpa using hi
      rw [List.map_cons, List.nodup_cons] at hnd
      have hmem : rest[j].mid ∈ rest.map Slot.mid :=
        List.mem_map_of_mem Slot.mid (List.getElem_mem hj)
      simp only [List.getElem_cons_succ]
      have hne : ¬ s.mid = rest[j].mid := fun he => hnd.1 (he ▸ hmem)
      simp only [setAckList, if_neg hne]
      rw [ih j hj rv hnd.2]
      rfl

/-- An acked slot of the window contributes its `(attempts, rtt, acked)`
triple to the tick's estimator calls. -/
lemma mem_tickSamples (c : Choker) (s : Slot) (rv : ℚ) (hs : s ∈ c.window)
    (hrv : s.rtt = some rv) :
    (s.attempts, rv, ackedCount c) ∈ tickSamples c := by
  unfold tickSamples
  exact List.mem_filterMap.mpr ⟨s, hs, by rw [hrv]; rfl⟩

/-- Bumping attempts preserves ids, so the pruned-and-bumped window has
the pruned window's id sequence. -/
lemma window2_mids (kept : List Slot) (L : ℕ) :
    (((kept.take L).map bumpAttempts ++ kept.drop L).map Slot.mid) =
      kept.map Slot.mid := by
  rw [List.map_append, List.map_map,
    show Slot.mid ∘ bumpAttempts = Slot.mid from rfl,
    ← List.map_append, List.take_append_drop]

/-- Claim C7: slots outside the relevant prefix are excluded from
retransmission handling but not from acknowledgment handling.  The
boundary `min (window_max, window length)` is evaluated where the code
slices: the attempts loop and the id collection slice the window after
pruning (lines 75–79 and 125–128), while acknowledgment and pruning see
the window as it stands when they run.  Conjunct one: whenever slots
beyond the boundary exist after pruning, the whole beyond-boundary
portion of the window survives the tick in place with every slot
unchanged (in particular no attempts increment), and none of those slots'
ids appear in the returned `ids_to_transmit`.  Conjunct two: a slot at
any position at or beyond the entry boundary can still be acknowledged by
`set_ack` (exactly its rtt field is set), and once acked it is pruned by
the tick — its sample is fed to the estimator and its id leaves the
window.  Ids are assumed pairwise distinct across window and queue, the
engine's documented contract. -/
theorem C7_relevance_boundary (c : Choker) (now : ℚ)
    (hwm : 1 ≤ c.window_max)
    (hnodup : (c.window.map Slot.mid ++ c.buf.map Prod.fst).Nodup) :
    (min c.window_max (prunedW c).length < (prunedW c).length →
      (c.rto_tick now).choker.window.drop (min c.window_max (prunedW c).length) =
        (prunedW c).drop (min c.window_max (prunedW c).length) ∧
      ∀ s ∈ (prunedW c).drop (min c.window_max (prunedW c).length),
        s.mid ∉ (c.rto_tick now).mids) ∧
    (∀ (i : ℕ), (hi : i < c.window.length) →
      min c.window_max c.window.length ≤ i →
      (∀ rv : ℚ, (c.set_ack (c.window[i].mid) rv).window =
        c.window.set i { c.window[i] with rtt := some rv }) ∧
      (∀ rv : ℚ, c.window[i].rtt = some rv →
        (c.window[i].attempts, rv, ackedCount c) ∈ (c.rto_tick now).samples ∧
        c.window[i].mid ∉ (c.rto_tick now).choker.window.map Slot.mid)) := by
  have hndw : (c.window.map Slot.mid).Nodup := hnodup.of_append_left
  have hndk : ((prunedW c).map Slot.mid).Nodup :=
    List.Nodup.sublist (List.Sublist.map Slot.mid (List.filter_sublist c.window)) hndw
  constructor
  · intro hlt
    have hLwm : min c.window_max (prunedW c).length = c.window_max := by omega
    have hadj : (windowAdjust (min c.window_max (prunedW c).length)
        c.window_state c.window_max).2 ≤ c.window_max := by
      unfold windowAdjust
      rw [if_pos (by omega : min c.window_max (prunedW c).length > 0)]
      show (if c.window_max > min c.window_max (prunedW c).length / 2
          then c.window_max - min c.window_max (prunedW c).length / 2 else 1) ≤
        c.window_max
      split_ifs <;> omega
    have htk : (((prunedW c).take (min c.window_max (prunedW c).length)).map
        bumpAttempts).length = min c.window_max (prunedW c).length := by
      simp [List.length_take]
    have hw2len : ((((prunedW c).take (min c.window_max (prunedW c).length)).map
          bumpAttempts)
        ++ (prunedW c).drop (min c.window_max (prunedW c).length)).length =
        (prunedW c).length := by
      simp [List.length_take, List.length_drop]
    have hfin : (c.rto_tick now).choker.window =
        (((prunedW c).take (min c.window_max (prunedW c).length)).map bumpAttempts)
          ++ (prunedW c).drop (min c.window_max (prunedW c).length) := by
      rw [rto_tick_window, refill_spec]
      rw [show (windowAdjust (min c.window_max (prunedW c).length)
            c.window_state c.window_max).2
          - ((((prunedW c).take (min c.window_max (prunedW c).length)).map
              bumpAttempts)
            ++ (prunedW c).drop (min c.window_max (prunedW c).length)).length = 0
        from by omega]
      simp
    constructor
    · have hdl : ∀ (A B : List Slot),
          A.length = min c.window_max (prunedW c).length →
          (A ++ B).drop (min c.window_max (prunedW c).length) = B := by
        intro A B hA
        rw [← hA, List.drop_left]
      rw [hfin, hdl _ _ htk]
    · intro s hs hmem
      have hmids : (c.rto_tick now).mids =
          (((prunedW c).map Slot.mid).take
            (windowAdjust (min c.window_max (prunedW c).length)
              c.window_state c.window_max).2) := by
        rw [rto_tick_mids]
        unfold Choker.relevant_window_len
        rw [rto_tick_window_max, hfin, hw2len]
        rw [show min (windowAdjust (min c.window_max (prunedW c).length)
              c.window_state c.window_max).2 (prunedW c).length =
            (windowAdjust (min c.window_max (prunedW c).length)
              c.window_state c.window_max).2
          from by omega]
        rw [List.map_take, window2_mids]
      rw [hmids] at hmem
      obtain ⟨j, hj, hje⟩ := List.getElem_of_mem hs
      rw [List.getElem_drop] at hje
      have hLj : min c.window_max (prunedW c).length + j < (prunedW c).length := by
        simp [List.length_drop] at hj
        omega
      have hLj' : min c.window_max (prunedW c).length + j <
          ((prunedW c).map Slot.mid).length := by simpa using hLj
      have hsm : ((prunedW c).map Slot.mid)[min c.window_max (prunedW c).length + j]
          = s.mid := by
        rw [List.getElem_map, hje]
      exact nodup_getElem_not_mem_take _ hndk _ _ hLj' (by omega) (hsm ▸ hmem)
  · intro i hi hout
    constructor
    · intro rv
      exact setAckList_set c.window i hi rv hndw
    · intro rv hrv
      constructor
      · rw [rto_tick_samples]
        exact mem_tickSamples c _ rv (List.getElem_mem hi) hrv
      · intro hmem
        rw [rto_tick_window] at hmem
        have hsub := refill_window_mids_subset _ _ _ hmem
        rw [window2_mids, List.mem_append] at hsub
        rcases hsub with hmem2 | hmemb
        · obtain ⟨s', hs', hm'⟩ := List.mem_map.mp hmem2
          have hs'w : s' ∈ c.window := List.mem_of_mem_filter hs'
          have hs'none : s'.rtt.isNone := by
            have h2 := List.of_mem_filter hs'
            simpa using h2
          have heq : s' = c.window[i] := nodup_mid_unique _ hndw i hi s' hs'w hm'
          rw [heq, hrv] at hs'none
          simp at hs'none
        · have hdisj := List.disjoint_of_nodup_append hnodup
          exact hdisj (List.mem_map_of_mem Slot.mid (List.getElem_mem hi)) hmemb

/-- Witness for claim C7 at a concrete engine with an acked slot, two
relevant unacked slots, a slot beyond the boundary and a queued chunk. -/
theorem C7_relevance_boundary_witness :
    (1 ≤ c7w.window_max ∧
     (c7w.window.map Slot.mid ++ c7w.buf.map Prod.fst).Nodup) ∧
    ((min c7w.window_max (prunedW c7w).length < (prunedW c7w).length →
       (c7w.rto_tick 0).choker.window.drop (min c7w.window_max (prunedW c7w).length) =
         (prunedW c7w).drop (min c7w.window_max (prunedW c7w).length) ∧
       ∀ s ∈ (prunedW c7w).drop (min c7w.window_max (prunedW c7w).length),
         s.mid ∉ (c7w.rto_tick 0).mids) ∧
     (∀ (i : ℕ), (hi : i < c7w.window.length) →
       min c7w.window_max c7w.window.length ≤ i →
       (∀ rv : ℚ, (c7w.set_ack (c7w.window[i].mid) rv).window =
         c7w.window.set i { c7w.window[i] with rtt := some rv }) ∧
       (∀ rv : ℚ, c7w.window[i].rtt = some rv →
         (c7w.window[i].attempts, rv, ackedCount c7w) ∈ (c7w.rto_tick 0).samples ∧
         c7w.window[i].mid ∉ (c7w.rto_tick 0).choker.window.map Slot.mid))) :=
  ⟨⟨by decide, by decide⟩, C7_relevance_boundary c7w 0 (by decide) (by decide)⟩

end Cocoa
